import Mathlib

/-!
Verification development for the `shell` package of the codecrafters shell
repository. The authoritative snapshot is the `shell` package whose parser
(`parseCommand`), dispatcher (`executeCommand` / `executeExternal`),
redirection resolver (`pipe`) and builtins (`exit`, `echo`, `_type`, `pwd`,
`cd`, `clear`) are embedded below. Go strings are modelled as Lean `String`
(exact for ASCII input, which is all the shell's metacharacters); operating
system effects (stat, mkdir, create, spawn, chdir, getwd) are modelled by
oracles in an `Env` record, and observable behaviour is a list of `Event`s.
-/

namespace Shell

/-! ## Go library helpers (modelled from the Go standard library) -/

/-- `unicode.IsSpace` for the code points Go's `strings.TrimSpace` trims. -/
def goIsSpace (c : Char) : Bool :=
  decide (c = '\t' ∨ c = '\n' ∨ c.toNat = 0x0b ∨ c.toNat = 0x0c ∨ c = '\r' ∨ c = ' '
    ∨ c.toNat = 0x85 ∨ c.toNat = 0xa0 ∨ c.toNat = 0x1680
    ∨ (0x2000 ≤ c.toNat ∧ c.toNat ≤ 0x200a)
    ∨ c.toNat = 0x2028 ∨ c.toNat = 0x2029 ∨ c.toNat = 0x202f ∨ c.toNat = 0x205f
    ∨ c.toNat = 0x3000)

/-- `strings.TrimSpace`. -/
def goTrimSpace (s : String) : String :=
  String.mk (((s.data.dropWhile goIsSpace).reverse.dropWhile goIsSpace).reverse)

/-- Splits a string at every occurrence of a separator character;
`strings.Split(s, sep)` for a one-character separator. -/
def splitOnCharAux (sep : Char) (cur : List Char) : List Char → List (List Char)
  | [] => [cur]
  | c :: r => if c = sep then cur :: splitOnCharAux sep [] r else splitOnCharAux sep (cur ++ [c]) r

/-- `strings.Split(s, ":")`, as used on the PATH variable. -/
def goSplitColon (s : String) : List String :=
  (splitOnCharAux ':' [] s.data).map String.mk

/-- `strings.Join(args, " ")`. -/
def joinSpace : List String → String
  | [] => ""
  | [a] => a
  | a :: rest => a ++ " " ++ joinSpace rest

/-- Decimal value of a digit string. -/
def digitsToNat (l : List Char) : Nat :=
  l.foldl (fun n c => n * 10 + (c.toNat - 48)) 0

/-- `strconv.Atoi`: optional sign, then decimal digits; syntax errors and
64-bit range errors are reported as Go formats them. -/
def goAtoi (s : String) : Except String Int :=
  let signed : Bool × List Char :=
    match s.data with
    | '+' :: r => (false, r)
    | '-' :: r => (true, r)
    | r => (false, r)
  if signed.2 = [] ∨ signed.2.all Char.isDigit = false then
    Except.error ("strconv.Atoi: parsing \x22" ++ s ++ "\x22: invalid syntax")
  else
    let n : Int :=
      if signed.1 then -(Int.ofNat (digitsToNat signed.2)) else Int.ofNat (digitsToNat signed.2)
    if n < -(2 ^ 63) ∨ 2 ^ 63 - 1 < n then
      Except.error ("strconv.Atoi: parsing \x22" ++ s ++ "\x22: value out of range")
    else Except.ok n

/-- Replace the first occurrence of a (nonempty) pattern in a char list. -/
def replFirst (pat rep : List Char) : List Char → List Char
  | [] => []
  | c :: r =>
    if pat.isPrefixOf (c :: r) then rep ++ (c :: r).drop pat.length
    else c :: replFirst pat rep r

/-- `strings.Replace(s, pat, rep, 1)`. -/
def goReplace1 (s pat rep : String) : String :=
  if pat.data = [] then rep ++ s
  else String.mk (replFirst pat.data rep.data s.data)

/-! ## `path/filepath`: Clean, Dir, Join (Unix rules) -/

/-- Backtracking step of `filepath.Clean` for a `..` element: drop the last
path element of the output buffer (Go's inner `for out.w > dotdot` loop). -/
def btLoop (dotdot : Nat) (out : List Char) : Nat → Nat
  | 0 => 0
  | Nat.succ w =>
    if dotdot < Nat.succ w ∧ out.get? (Nat.succ w) ≠ some '/' then btLoop dotdot out w
    else Nat.succ w

/-- `out.w--; for out.w > dotdot && out.index(out.w) != '/' { out.w-- }`. -/
def dotdotBacktrack (dotdot : Nat) (out : List Char) : List Char :=
  out.take (btLoop dotdot out (out.length - 1))

/-- Main loop of `filepath.Clean`, processed path-element-wise. Go's
character loop acts at element boundaries: an empty element (duplicate
separator) or a lone `.` is skipped, a lone `..` backtracks (or, unrooted,
is appended and guarded by `dotdot`), and any other element is copied with a
separator as needed. -/
def cleanElems (rooted : Bool) : List (List Char) → Nat → List Char → List Char
  | [], _, out => out
  | e :: es, dotdot, out =>
    if e = [] ∨ e = ['.'] then cleanElems rooted es dotdot out
    else if e = ['.', '.'] then
      if dotdot < out.length then cleanElems rooted es dotdot (dotdotBacktrack dotdot out)
      else if rooted = false then
        cleanElems rooted es
          ((if 0 < out.length then out ++ ['/'] else out) ++ ['.', '.']).length
          ((if 0 < out.length then out ++ ['/'] else out) ++ ['.', '.'])
      else cleanElems rooted es dotdot out
    else
      cleanElems rooted es dotdot
        ((if (rooted = true ∧ out.length ≠ 1) ∨ (rooted = false ∧ out.length ≠ 0)
          then out ++ ['/'] else out) ++ e)

/-- `filepath.Clean` on Unix. -/
def pathClean (path : String) : String :=
  if path.data = [] then "."
  else
    let rooted : Bool := match path.data with | '/' :: _ => true | _ => false
    let rem := if rooted then path.data.tail else path.data
    let out := cleanElems rooted (splitOnCharAux '/' [] rem) (if rooted then 1 else 0)
      (if rooted then ['/'] else [])
    if out = [] then "." else String.mk out

/-- `filepath.Dir`: everything up to and including the final separator,
then cleaned. -/
def filepathDir (p : String) : String :=
  pathClean (String.mk ((p.data.reverse.dropWhile (fun c => c != '/')).reverse))

/-- `filepath.Join` of two elements: empty elements are dropped, the rest are
joined with `/` and cleaned. -/
def filepathJoin (a b : String) : String :=
  if a = "" ∧ b = "" then ""
  else if a = "" then pathClean b
  else if b = "" then pathClean a
  else pathClean (a ++ "/" ++ b)

/-! ## Data model -/

deriving instance DecidableEq for Except

/-- The parsed `Command` record. `nextCommand *Command` is modelled as the
index of the successor in the chain slice (`next`), set by `linkChain`. -/
structure Command where
  op : String
  args : List String
  stdout : String := ""
  stderr : String := ""
  next : Option Nat := none
deriving DecidableEq

/-- Where a command's standard output goes: the inherited terminal stdout or
a file opened by the redirection resolver. -/
inductive Writer where
  | stdout
  | file (path : String)
deriving DecidableEq

/-- Observable effects of one REPL evaluation. `fwrite` covers
`fmt.Println` / `fmt.Printf` / `fmt.Fprintln`: the full string written,
trailing newline included. -/
inductive Event where
  | fwrite (w : Writer) (s : String)
  | mkdir (dir : String)
  | create (path : String)
  | spawn (op : String) (args : List String) (out : Writer)
  | chdir (dir : String)
  | procExit (code : Int)
deriving DecidableEq

/-- Result of running one command: returned `nil`, returned an error value,
or terminated the whole process via `os.Exit`. -/
inductive CmdOutcome where
  | ok
  | err (msg : String)
  | exited (code : Int)
deriving DecidableEq

/-- Operating-system oracles: environment variables, the stat/mkdir/create
syscalls used by `find` and `pipe`, external process results, getwd/chdir,
and `runtime.GOOS`. `execOk` tells whether the entry at a path is an
executable file; the source never consults it (its `find` uses bare
`os.Stat`), only the spec-side `specFindExecutable` does. -/
structure Env where
  pathVar : String
  home : String
  statOk : String → Bool
  execOk : String → Bool
  mkdirErr : String → Option String
  createErr : String → Option String
  runErr : String → List String → Option String
  getwd : Except String String
  chdirOk : String → Bool
  goos : String

/-- The builtin registry's keys, populated by `initCommands`. -/
def builtinNames : List String :=
  ["exit", "echo", "type", "pwd", "cd", "cls", "clear"]

/-! ## `find`: the executable finder -/

/-- Loop of `find`: try each PATH directory in order, returning the first
joined path whose `os.Stat` succeeds. -/
def findInPaths (env : Env) (exe : String) : List String → Option String
  | [] => none
  | p :: rest =>
    if env.statOk (filepathJoin p exe) then some (filepathJoin p exe)
    else findInPaths env exe rest

/-- `find`: split PATH on `:` and scan in listed order (`("NOENT", false)`
is modelled as `none`). -/
def find (env : Env) (exe : String) : Option String :=
  findInPaths env exe (goSplitColon env.pathVar)

/-- Spec-side variant of `find`, following the spec's words: the match must
be an *executable* file. The source's `find` checks bare existence via
`os.Stat`; this definition exists to compare the two. -/
def specFindExecutableIn (env : Env) (exe : String) : List String → Option String
  | [] => none
  | p :: rest =>
    if env.statOk (filepathJoin p exe) ∧ env.execOk (filepathJoin p exe) then
      some (filepathJoin p exe)
    else specFindExecutableIn env exe rest

/-- Spec-side `find` over the split PATH. -/
def specFindExecutable (env : Env) (exe : String) : Option String :=
  specFindExecutableIn env exe (goSplitColon env.pathVar)

/-! ## `pipe`: the redirection resolver -/

/-- The resolver's match condition:
`strings.HasPrefix(arg, ">") || strings.HasPrefix(arg, "1>")`. -/
def isRedirOp (a : String) : Bool :=
  ">".data.isPrefixOf a.data || "1>".data.isPrefixOf a.data

/-- The scan inside `pipe`: find the first index `i` with `i < len-1` whose
argument matches `isRedirOp`; returns the decomposition
`args = pre ++ op :: target :: post`. -/
def pipeScan : List String → Option (List String × String × String × List String)
  | a :: b :: rest =>
    if isRedirOp a then some ([], a, b, rest)
    else
      match pipeScan (b :: rest) with
      | some (pre, x, y, post) => some (a :: pre, x, y, post)
      | none => none
  | _ => none

/-- `pipe`: scan for the first redirection token at a non-last index; on a
match, trim the following token, `os.MkdirAll` its directory, `os.Create`
the file, and remove the two tokens from the argument list. Go mutates
`*args` in place; here the rewritten list is returned. -/
def pipe (env : Env) (args : List String) :
    List Event × Except String (Writer × List String) :=
  match pipeScan args with
  | none => ([], Except.ok (Writer.stdout, args))
  | some (pre, _tok, target, post) =>
    let fi := goTrimSpace target
    let dir := filepathDir fi
    match env.mkdirErr dir with
    | some e => ([], Except.error ("Error creating directory: " ++ e))
    | none =>
      match env.createErr fi with
      | some e => ([Event.mkdir dir], Except.error ("Error creating output file: " ++ e))
      | none =>
        ([Event.mkdir dir, Event.create fi], Except.ok (Writer.file fi, pre ++ post))

/-! ## Builtins

Each builtin returns its emitted events, its outcome, and whether execution
reached the final `if next != nil` point (so the continuation would run). -/

/-- Builtin `exit`. `os.Exit` is the `procExit` event / `exited` outcome. -/
def exit (args : List String) : List Event × CmdOutcome × Bool :=
  if args.length > 1 then
    ([], CmdOutcome.err ("Error: Expected [0:1] argument, received " ++ toString args.length),
     false)
  else
    match args with
    | [] => ([Event.procExit 0], CmdOutcome.exited 0, false)
    | a :: _ =>
      match goAtoi a with
      | Except.error e => ([], CmdOutcome.err e, false)
      | Except.ok code => ([Event.procExit code], CmdOutcome.exited code, false)

/-- Builtin `echo`: resolve redirection, then `fmt.Fprintln(writer, joined)`. -/
def echo (env : Env) (args : List String) : List Event × CmdOutcome × Bool :=
  match pipe env args with
  | (evs, Except.error e) => (evs, CmdOutcome.err e, false)
  | (evs, Except.ok (w, args2)) =>
    (evs ++ [Event.fwrite w (joinSpace args2 ++ "\n")], CmdOutcome.ok, true)

/-- Builtin `type`. -/
def _type (env : Env) (args : List String) : List Event × CmdOutcome × Bool :=
  match args with
  | [a] =>
    if a ∈ builtinNames then
      ([Event.fwrite Writer.stdout (a ++ " is a shell builtin\n")], CmdOutcome.ok, true)
    else
      match find env a with
      | some fp => ([Event.fwrite Writer.stdout (a ++ " is " ++ fp ++ "\n")], CmdOutcome.ok, true)
      | none => ([Event.fwrite Writer.stdout (a ++ ": not found\n")], CmdOutcome.ok, true)
  | _ =>
    ([], CmdOutcome.err ("Error: Expected 1 argument, received " ++ toString args.length), false)

/-- Builtin `pwd`. -/
def pwd (env : Env) : List Event × CmdOutcome × Bool :=
  match env.getwd with
  | Except.error e => ([], CmdOutcome.err e, false)
  | Except.ok p => ([Event.fwrite Writer.stdout (p ++ "\n")], CmdOutcome.ok, true)

/-- Path alias substitution (the alias table holds only `~` → HOME). -/
def replacePath (env : Env) (p : String) : String :=
  goReplace1 p "~" env.home

/-- Builtin `cd`. -/
def cd (env : Env) (args : List String) : List Event × CmdOutcome × Bool :=
  match args with
  | [] => ([], CmdOutcome.err "Error: No directory specified", false)
  | a :: _ =>
    if env.chdirOk (replacePath env a) then ([Event.chdir (replacePath env a)], CmdOutcome.ok, true)
    else ([], CmdOutcome.err ("cd: " ++ a ++ ": No such file or directory"), false)

/-- Builtin `clear` / `cls`; the spawned command's error is ignored. -/
def clear (env : Env) : List Event × CmdOutcome × Bool :=
  if env.goos = "linux" then ([Event.spawn "clear" [] Writer.stdout], CmdOutcome.ok, true)
  else if env.goos = "windows" then
    ([Event.spawn "cmd" ["/c", "cls"] Writer.stdout], CmdOutcome.ok, true)
  else ([], CmdOutcome.err "Error: Unsupported OS", false)

/-- Dispatch of a builtin name through the registry map. -/
def runBuiltin (env : Env) (name : String) (args : List String) :
    List Event × CmdOutcome × Bool :=
  if name = "exit" then exit args
  else if name = "echo" then echo env args
  else if name = "type" then _type env args
  else if name = "pwd" then pwd env
  else if name = "cd" then cd env args
  else clear env

/-! ## Dispatcher -/

/-- `executeExternal`. Note that `exec.Command(cmd.op, cmd.args...)` copies
the argument slice *before* `pipe` rewrites it, and `ext.Args` is not
refreshed afterwards, so the spawned child receives the original, unstripped
argument list; only the writer reflects the redirection. -/
def executeExternal (env : Env) (cmd : Command) : List Event × CmdOutcome × Bool :=
  match pipe env cmd.args with
  | (evs, Except.error e) => (evs, CmdOutcome.err e, false)
  | (evs, Except.ok (w, _strippedArgs)) =>
    match env.runErr cmd.op cmd.args with
    | some e =>
      (evs ++ [Event.spawn cmd.op cmd.args w], CmdOutcome.err (cmd.op ++ ": " ++ e), false)
    | none => (evs ++ [Event.spawn cmd.op cmd.args w], CmdOutcome.ok, true)

/-- The `<name>: command not found` text (printed and also returned as the
error value, newline included, exactly as `fmt.Printf`/`fmt.Errorf` format it). -/
def notFoundMsg (op : String) : String :=
  op ++ ": command not found\n"

/-- The head-command step of `executeCommand`: builtin lookup, else external
search, else report not found. The third component tells whether the
continuation (`next`) would be invoked. -/
def dispatchHead (env : Env) (cmd : Command) : List Event × CmdOutcome × Bool :=
  if cmd.op ∈ builtinNames then runBuiltin env cmd.op cmd.args
  else if (find env cmd.op).isSome then executeExternal env cmd
  else ([Event.fwrite Writer.stdout (notFoundMsg cmd.op)], CmdOutcome.err (notFoundMsg cmd.op),
        false)

/-- `executeCommand` over a chain: the continuation passed to the head is the
execution of the rest of the chain (the `nextCommand` links built by
`parseCommand` are exactly the list successors, see `linkChain`). -/
def executeCommand (env : Env) : List Command → List Event × CmdOutcome
  | [] => ([], CmdOutcome.ok)
  | cmd :: rest =>
    let t := dispatchHead env cmd
    if t.2.2 = true ∧ rest ≠ [] then
      (t.1 ++ (executeCommand env rest).1, (executeCommand env rest).2)
    else (t.1, t.2.1)

/-! ## `parseCommand`: the tokenizer/parser -/

/-- Parser state: the command under construction (`op`, `args`, `isFirst`),
the token builder, the three scan flags, and the stack of finished commands. -/
structure PState where
  op : String
  args : List String
  token : List Char
  sq : Bool
  dq : Bool
  bs : Bool
  isFirst : Bool
  stack : List Command
deriving DecidableEq

/-- `flushToken`: a nonempty token becomes the operation if it is the first
token of the command, otherwise an argument. -/
def flushToken (st : PState) : PState :=
  if st.token = [] then st
  else if st.isFirst then
    { st with op := String.mk st.token, isFirst := false, token := [] }
  else
    { st with args := st.args ++ [String.mk st.token], token := [] }

/-- `pushCommand`: flush, then queue the command unless its operation is
empty (in which case the current record is kept, not reset). -/
def pushCmd (st : PState) : PState :=
  let st2 := flushToken st
  if st2.op = "" then st2
  else
    { st2 with
      stack := st2.stack ++ [{ op := st2.op, args := st2.args }],
      op := "", args := [], isFirst := true }

/-- The `>` branch: flush the current token, then append a bare `">"` to the
current command's argument list (even before any operation token). -/
def pushRedirTok (st : PState) : PState :=
  let st2 := flushToken st
  { st2 with args := st2.args ++ [">"] }

/-- One character of the `parseCommand` scan, for every case except the
two-character `&&` separator (which needs lookahead and is handled in
`ploop`). The backslash branch is taken regardless of quote state, exactly
as in the source. -/
def pstep (st : PState) (c : Char) : PState :=
  if st.bs then { st with token := st.token ++ [c], bs := false }
  else if c = '\\' then { st with bs := true }
  else if c = '\x27' ∧ st.dq = false then { st with sq := !st.sq }
  else if c = '"' ∧ st.sq = false then { st with dq := !st.dq }
  else if st.sq = false ∧ st.dq = false ∧ c = '>' then pushRedirTok st
  else if c = ' ' ∧ st.sq = false ∧ st.dq = false then flushToken st
  else { st with token := st.token ++ [c] }

/-- The scan loop of `parseCommand` (Go iterates bytes; this model iterates
characters, which coincides on ASCII input). An unquoted, unescaped `&`
followed by another `&` finalizes the current command and skips both
characters; every other character is a `pstep`. -/
def ploop (st : PState) : List Char → PState
  | [] => st
  | [c] => pstep st c
  | c :: c2 :: rest =>
    if st.bs = false ∧ st.sq = false ∧ st.dq = false ∧ c = '&' ∧ c2 = '&' then
      ploop (pushCmd st) rest
    else ploop (pstep st c) (c2 :: rest)

/-- The parser's initial state. -/
def initPState : PState :=
  { op := "", args := [], token := [], sq := false, dq := false, bs := false,
    isFirst := true, stack := [] }

/-- `parseCommand input`: scan, then a final `pushCommand`. -/
def parseCommand (s : String) : List Command :=
  (pushCmd (ploop initPState s.data)).stack

/-- The linking loop `for i { stack[i].nextCommand = &stack[i+1] }`,
expressed on successor indices. -/
def linkAux (i total : Nat) : List Command → List Command
  | [] => []
  | c :: rest =>
    { c with next := if i + 1 < total then some (i + 1) else none } :: linkAux (i + 1) total rest

/-- Link every parsed command to its successor; the last command's link
stays empty. -/
def linkChain (l : List Command) : List Command :=
  linkAux 0 l.length l

/-- Parse and link: the chain as `parseCommand` leaves it in `s.stack`. -/
def parseChain (s : String) : List Command :=
  linkChain (parseCommand s)

/-! ## Spec-side tokenizer (for the refinement claim C5) -/

/-- Spec-side word splitting, following the spec's words: tokens are
delimited by (unquoted) space characters and consecutive spaces collapse. -/
def specWordsAux (t : List Char) : List Char → List (List Char)
  | [] => if t = [] then [] else [t]
  | c :: rest =>
    if c = ' ' then
      if t = [] then specWordsAux [] rest else t :: specWordsAux [] rest
    else specWordsAux (t ++ [c]) rest

/-- Spec-side token list of an input line. -/
def specTokens (s : String) : List String :=
  (specWordsAux [] s.data).map String.mk

/-- A character none of whose readings trigger parser special-casing beyond
spaces and (paired) ampersands. -/
def plainChar (c : Char) : Bool :=
  !(c == '\x27' || c == '"' || c == '\\' || c == '>')

/-- No two consecutive ampersands (no `&&` chain separator anywhere). -/
def noAmpAmp : List Char → Bool
  | c1 :: c2 :: rest => (!(c1 == '&' && c2 == '&')) && noAmpAmp (c2 :: rest)
  | _ => true

/-- The chain contributed by the current parser command-record once the
remaining token stream `ts` is flushed into it (helper for the C5 proof). -/
def chainOf (isFirst : Bool) (op : String) (args : List String) (ts : List String) :
    List Command :=
  if isFirst then
    match ts with
    | [] => []
    | w :: ws => [{ op := w, args := ws }]
  else [{ op := op, args := args ++ ts }]

/-! ## Concrete environments used by witnesses and counterexamples -/

/-- An environment with empty PATH, every stat failing and every other
syscall succeeding. -/
def envW : Env :=
  { pathVar := "", home := "", statOk := fun _ => false, execOk := fun _ => false,
    mkdirErr := fun _ => none, createErr := fun _ => none, runErr := fun _ _ => none,
    getwd := Except.ok "/", chdirOk := fun _ => true, goos := "linux" }

/-- An environment where `/bin/ls` exists and external runs succeed. -/
def envR : Env :=
  { pathVar := "/bin", home := "", statOk := fun p => p == "/bin/ls",
    execOk := fun p => p == "/bin/ls",
    mkdirErr := fun _ => none, createErr := fun _ => none, runErr := fun _ _ => none,
    getwd := Except.ok "/", chdirOk := fun _ => true, goos := "linux" }

/-- An environment whose single PATH directory `d` contains an entry `x`
that exists (`os.Stat` succeeds) but is not an executable file. -/
def envT : Env :=
  { pathVar := "d", home := "", statOk := fun p => p == "d/x", execOk := fun _ => false,
    mkdirErr := fun _ => none, createErr := fun _ => none, runErr := fun _ _ => none,
    getwd := Except.ok "/", chdirOk := fun _ => true, goos := "linux" }

/-! ## Lemmas about the redirection scan -/

/-- Soundness of `pipeScan`: a match decomposes the list at the first
redirection token sitting at a non-last index. -/
theorem pipeScan_some_spec (l : List String) :
    ∀ pre a b post, pipeScan l = some (pre, a, b, post) →
      l = pre ++ a :: b :: post ∧ isRedirOp a = true ∧ ∀ x ∈ pre, isRedirOp x = false := by
  induction l with
  | nil => intro pre a b post h; simp [pipeScan] at h
  | cons x l ih =>
    intro pre a b post h
    cases l with
    | nil => simp [pipeScan] at h
    | cons y l2 =>
      by_cases hx : isRedirOp x = true
      · simp [pipeScan, hx] at h
        obtain ⟨h1, h2, h3, h4⟩ := h
        subst h1; subst h2; subst h3; subst h4
        simp [hx]
      · simp [pipeScan, hx] at h
        cases hps : pipeScan (y :: l2) with
        | none => rw [hps] at h; simp at h
        | some q =>
          obtain ⟨pre2, a2, b2, post2⟩ := q
          rw [hps] at h
          simp at h
          obtain ⟨h1, h2, h3, h4⟩ := h
          obtain ⟨hdec, hop, hpre⟩ := ih pre2 a2 b2 post2 hps
          subst h2; subst h3; subst h4
          refine ⟨?_, hop, ?_⟩
          · rw [← h1, hdec]; simp
          · intro z hz
            rw [← h1] at hz
            rcases List.mem_cons.mp hz with hz' | hz'
            · subst hz'; simpa using hx
            · exact hpre z hz'

/-- Completeness of `pipeScan`: the first redirection token at a non-last
index is found. -/
theorem pipeScan_first (pre : List String) (a b : String) (post : List String)
    (hpre : ∀ x ∈ pre, isRedirOp x = false) (ha : isRedirOp a = true) :
    pipeScan (pre ++ a :: b :: post) = some (pre, a, b, post) := by
  induction pre with
  | nil => simp [pipeScan, ha]
  | cons x pre ih =>
    have hx : isRedirOp x = false := hpre x (by simp)
    have hrest := ih (fun y hy => hpre y (by simp [hy]))
    cases hq : pre ++ a :: b :: post with
    | nil => simp at hq
    | cons y t =>
      rw [List.cons_append, hq]
      rw [hq] at hrest
      simp [pipeScan, hx, hrest]

/-- A list whose only candidate token sits at the last index never matches. -/
theorem pipeScan_snoc_none (l : List String) (a : String)
    (hl : ∀ x ∈ l, isRedirOp x = false) : pipeScan (l ++ [a]) = none := by
  induction l with
  | nil => simp [pipeScan]
  | cons x l ih =>
    have hx : isRedirOp x = false := hl x (by simp)
    have hrest := ih (fun y hy => hl y (by simp [hy]))
    cases hq : l ++ [a] with
    | nil => simp at hq
    | cons y t =>
      rw [List.cons_append, hq]
      rw [hq] at hrest
      simp [pipeScan, hx, hrest]

/-! ## Claims C10, C2, C3, C6 -/

/-- C10: when the only redirection-operator-shaped token occupies the last
index, the resolver's scan (which stops at `i >= len-1`) finds no match: it
returns the inherited standard output, emits no mkdir/create event, reports
no error, and leaves the argument list unchanged, the trailing operator
passed through. -/
theorem claimC10 (env : Env) (l : List String) (a : String)
    (_hop : isRedirOp a = true) (hl : ∀ x ∈ l, isRedirOp x = false) :
    pipe env (l ++ [a]) = ([], Except.ok (Writer.stdout, l ++ [a])) := by
  have h := pipeScan_snoc_none l a hl
  simp [pipe, h]

/-- Witness for C10 at `args = ["e", ">"]`. -/
theorem claimC10_witness :
    pipe envW (["e"] ++ [">"]) = ([], Except.ok (Writer.stdout, ["e"] ++ [">"])) :=
  claimC10 envW ["e"] ">" (by decide) (by decide)

/-- C2 counterexample: the resolver rewrites on the argument `">x"`, which is
textually equal to neither `>` nor `1>` (the source tests `strings.HasPrefix`,
not equality), so "operator iff textually equal" fails. -/
theorem claimC2_counterexample :
    pipe envW [">x", "f"]
      = ([Event.mkdir ".", Event.create "f"], Except.ok (Writer.file "f", ([] : List String)))
    ∧ (">x" : String) ≠ ">" ∧ (">x" : String) ≠ "1>" := by decide

/-- C2 (amended): an argument at a non-last index is treated as a
stdout-redirection operator iff it *starts with* `>` or `1>`; only the first
such match is honored and at most one rewrite (removing exactly that operator
and its target) occurs per invocation. -/
theorem claimC2_amended (env : Env) (args : List String) :
    ((∀ pre a b post, args = pre ++ a :: b :: post → isRedirOp a = false) →
      pipe env args = ([], Except.ok (Writer.stdout, args)))
    ∧ (∀ pre a b post, args = pre ++ a :: b :: post →
        (∀ x ∈ pre, isRedirOp x = false) → isRedirOp a = true →
        ∀ w args2, (pipe env args).2 = Except.ok (w, args2) →
          w = Writer.file (goTrimSpace b) ∧ args2 = pre ++ post) := by
  constructor
  · intro hno
    cases hscan : pipeScan args with
    | none => simp [pipe, hscan]
    | some q =>
      obtain ⟨pre, a, b, post⟩ := q
      obtain ⟨hdec, hopq, -⟩ := pipeScan_some_spec args pre a b post hscan
      rw [hno pre a b post hdec] at hopq
      exact absurd hopq (by simp)
  · intro pre a b post hdec hpre hopq w args2 hres
    subst hdec
    have hscan := pipeScan_first pre a b post hpre hopq
    simp only [pipe, hscan] at hres
    cases hmk : env.mkdirErr (filepathDir (goTrimSpace b)) with
    | some e => rw [hmk] at hres; simp at hres
    | none =>
      rw [hmk] at hres
      cases hcr : env.createErr (goTrimSpace b) with
      | some e => rw [hcr] at hres; simp at hres
      | none =>
        rw [hcr] at hres
        simp at hres
        exact ⟨hres.1.symm, hres.2.symm⟩

/-- Witness for C2 (amended) at `args = ["a", ">", "b"]`. -/
theorem claimC2_witness :
    Writer.file "b" = Writer.file (goTrimSpace "b")
    ∧ (["a"] : List String) = ["a"] ++ ([] : List String) :=
  (claimC2_amended envW ["a", ">", "b"]).2 ["a"] ">" "b" [] (by decide) (by decide) (by decide)
    (Writer.file "b") ["a"] (by decide)

/-- C3: the code passes the child the *unstripped* argument list.
`exec.Command(cmd.op, cmd.args...)` copies the slice before `pipe` rewrites
it and `ext.Args` is never refreshed, so for `ls > /tmp/out`-style input the
spawned process still receives `[">", "/tmp/out"]` even though the resolver
stripped them (the stripped list is `[]`) and the writer was redirected. -/
theorem claimC3_bug :
    executeExternal envR { op := "ls", args := [">", "/tmp/out"] }
      = ([Event.mkdir "/tmp", Event.create "/tmp/out",
          Event.spawn "ls" [">", "/tmp/out"] (Writer.file "/tmp/out")],
         CmdOutcome.ok, true)
    ∧ (pipe envR [">", "/tmp/out"]).2 = Except.ok (Writer.file "/tmp/out", ([] : List String))
    ∧ ([">", "/tmp/out"] : List String) ≠ ([] : List String) := by decide

/-- C6: `echo` writes the redirection-stripped arguments joined by single
spaces plus exactly one newline to the resolved target; with a file target,
the resolver has created the containing directory and the file, and no event
writes to the terminal's standard output. -/
theorem claimC6 (env : Env) (args : List String) (pevs : List Event) (w : Writer)
    (args2 : List String) (hp : pipe env args = (pevs, Except.ok (w, args2))) :
    echo env args = (pevs ++ [Event.fwrite w (joinSpace args2 ++ "\n")], CmdOutcome.ok, true)
    ∧ ∀ t, w = Writer.file t →
        pevs = [Event.mkdir (filepathDir t), Event.create t]
        ∧ ∀ s, Event.fwrite Writer.stdout s
            ∉ pevs ++ [Event.fwrite w (joinSpace args2 ++ "\n")] := by
  constructor
  · simp [echo, hp]
  · intro t hw
    subst hw
    have hpevs : pevs = [Event.mkdir (filepathDir t), Event.create t] := by
      cases hscan : pipeScan args with
      | none => simp only [pipe, hscan] at hp; simp at hp
      | some q =>
        obtain ⟨pre, tok, target, post⟩ := q
        simp only [pipe, hscan] at hp
        cases hmk : env.mkdirErr (filepathDir (goTrimSpace target)) with
        | some e => rw [hmk] at hp; simp at hp
        | none =>
          rw [hmk] at hp
          cases hcr : env.createErr (goTrimSpace target) with
          | some e => rw [hcr] at hp; simp at hp
          | none =>
            rw [hcr] at hp
            simp at hp
            obtain ⟨h1, h2, -⟩ := hp
            rw [← h1, ← h2]

    subst hpevs
    refine ⟨rfl, ?_⟩
    intro s
    simp

/-- Witness for C6: `echo hello > /tmp/x/out.txt` creates `/tmp/x`, creates
the file, and writes `hello` plus a newline to it, nothing to the terminal. -/
theorem claimC6_witness :
    echo envW ["hello", ">", "/tmp/x/out.txt"]
      = ([Event.mkdir "/tmp/x", Event.create "/tmp/x/out.txt"]
          ++ [Event.fwrite (Writer.file "/tmp/x/out.txt") (joinSpace ["hello"] ++ "\n")],
         CmdOutcome.ok, true)
    ∧ [Event.mkdir "/tmp/x", Event.create "/tmp/x/out.txt"]
        = [Event.mkdir (filepathDir "/tmp/x/out.txt"), Event.create "/tmp/x/out.txt"] :=
  have h := claimC6 envW ["hello", ">", "/tmp/x/out.txt"]
    [Event.mkdir "/tmp/x", Event.create "/tmp/x/out.txt"]
    (Writer.file "/tmp/x/out.txt") ["hello"] (by decide)
  ⟨h.1, (h.2 "/tmp/x/out.txt" rfl).1⟩

/-! ## Claims C1 and C7 -/

/-- The head command, dispatched externally, fails: either the resolver
errors out or `ext.Run` reports an error (nonzero exit or failure to start). -/
def externalRunFails (env : Env) (cmd : Command) : Prop :=
  (∃ e, (pipe env cmd.args).2 = Except.error e) ∨ env.runErr cmd.op cmd.args ≠ none

/-- A head command that is not a builtin and is unresolvable or fails makes
the dispatcher produce an error outcome without reaching the continuation. -/
theorem dispatchHead_fails (env : Env) (cmd : Command)
    (hnb : cmd.op ∉ builtinNames)
    (hfail : find env cmd.op = none ∨ externalRunFails env cmd) :
    ∃ evs m, dispatchHead env cmd = (evs, CmdOutcome.err m, false) := by
  unfold dispatchHead
  rw [if_neg hnb]
  cases hfind : find env cmd.op with
  | none => simp [hfind]
  | some fp =>
    simp only [hfind, Option.isSome_some, if_true]
    rcases hfail with hfind2 | hrun
    · rw [hfind] at hfind2; exact absurd hfind2 (by simp)
    · unfold externalRunFails at hrun
      unfold executeExternal
      rcases hpipe : pipe env cmd.args with ⟨pevs, pres⟩
      cases pres with
      | error e => simp [hpipe]
      | ok pr =>
        obtain ⟨w, args2⟩ := pr
        rcases hrun with ⟨e, he⟩ | hrun
        · rw [hpipe] at he; simp at he
        · cases hre : env.runErr cmd.op cmd.args with
          | none => exact absurd hre hrun
          | some e => simp [hpipe, hre]

/-- C1: if the head command's operation is neither a builtin nor resolvable
on the search path, or it fails as an external command, the dispatcher does
not invoke the continuation — the result is identical whatever the rest of
the chain holds — the outcome is an error, and in the not-found case the
only output is the `<name>: command not found` report. -/
theorem claimC1 (env : Env) (cmd : Command) (rest : List Command)
    (hnb : cmd.op ∉ builtinNames)
    (hfail : find env cmd.op = none ∨ externalRunFails env cmd) :
    executeCommand env (cmd :: rest) = executeCommand env [cmd]
    ∧ (∃ m, (executeCommand env (cmd :: rest)).2 = CmdOutcome.err m)
    ∧ (find env cmd.op = none →
        executeCommand env (cmd :: rest)
          = ([Event.fwrite Writer.stdout (notFoundMsg cmd.op)],
             CmdOutcome.err (notFoundMsg cmd.op))) := by
  obtain ⟨evs, m, hd⟩ := dispatchHead_fails env cmd hnb hfail
  have h1 : executeCommand env (cmd :: rest) = (evs, CmdOutcome.err m) := by
    simp [executeCommand, hd]
  have h2 : executeCommand env [cmd] = (evs, CmdOutcome.err m) := by
    simp [executeCommand, hd]
  refine ⟨h1.trans h2.symm, ⟨m, by rw [h1]⟩, ?_⟩
  intro hfind
  have hd2 : dispatchHead env cmd
      = ([Event.fwrite Writer.stdout (notFoundMsg cmd.op)],
         CmdOutcome.err (notFoundMsg cmd.op), false) := by
    unfold dispatchHead
    rw [if_neg hnb]
    simp [hfind]
  simp [executeCommand, hd2]

/-- Witness for C1: `nosuch && echo hi` stops at the not-found report. -/
theorem claimC1_witness :
    executeCommand envW [{ op := "nosuch", args := [] }, { op := "echo", args := ["hi"] }]
      = ([Event.fwrite Writer.stdout (notFoundMsg "nosuch")],
         CmdOutcome.err (notFoundMsg "nosuch")) :=
  (claimC1 envW { op := "nosuch", args := [] } [{ op := "echo", args := ["hi"] }]
    (by decide) (Or.inl (by decide))).2.2 (by decide)

/-- C7: `exit` with no arguments terminates the process with code 0; with
one integer argument it terminates with that code; with one non-numeric
argument the conversion error is the returned (reported) outcome and no
termination happens; with more than one argument the arity error is the
returned outcome and no termination happens. -/
theorem claimC7 (args : List String) :
    (args = [] → exit args = ([Event.procExit 0], CmdOutcome.exited 0, false))
    ∧ (∀ a n, args = [a] → goAtoi a = Except.ok n →
        exit args = ([Event.procExit n], CmdOutcome.exited n, false))
    ∧ (∀ a e, args = [a] → goAtoi a = Except.error e →
        exit args = ([], CmdOutcome.err e, false))
    ∧ (args.length > 1 →
        exit args = ([], CmdOutcome.err
          ("Error: Expected [0:1] argument, received " ++ toString args.length), false)) := by
  refine ⟨?_, ?_, ?_, ?_⟩
  · intro h; subst h; simp [exit]
  · intro a n h hn; subst h; simp [exit, hn]
  · intro a e h hn; subst h; simp [exit, hn]
  · intro h; unfold exit; rw [if_pos h]

/-- Witness for C7 at the four spec examples. -/
theorem claimC7_witness :
    exit [] = ([Event.procExit 0], CmdOutcome.exited 0, false)
    ∧ exit ["3"] = ([Event.procExit 3], CmdOutcome.exited 3, false)
    ∧ exit ["abc"]
        = ([], CmdOutcome.err "strconv.Atoi: parsing \x22abc\x22: invalid syntax", false)
    ∧ exit ["1", "2"] = ([], CmdOutcome.err "Error: Expected [0:1] argument, received 2", false) :=
  ⟨(claimC7 []).1 rfl,
   (claimC7 ["3"]).2.1 "3" 3 rfl (by decide),
   (claimC7 ["abc"]).2.2.1 "abc" "strconv.Atoi: parsing \x22abc\x22: invalid syntax" rfl
     (by decide),
   (claimC7 ["1", "2"]).2.2.2 (by decide)⟩

/-! ## Claim C8 -/

/-- Soundness of the PATH scan: a hit is the joined path of some listed
directory, its stat succeeds, and every earlier directory's candidate fails. -/
theorem findInPaths_some_spec (env : Env) (exe : String) :
    ∀ (ps : List String) (fp : String), findInPaths env exe ps = some fp →
      ∃ (i : Nat) (d : String), ps[i]? = some d ∧ fp = filepathJoin d exe ∧ env.statOk fp = true
        ∧ ∀ (j : Nat) (d2 : String), j < i → ps[j]? = some d2 → env.statOk (filepathJoin d2 exe) = false := by
  intro ps
  induction ps with
  | nil => intro fp h; simp [findInPaths] at h
  | cons p rest ih =>
    intro fp h
    by_cases hs : env.statOk (filepathJoin p exe) = true
    · simp [findInPaths, hs] at h
      refine ⟨0, p, by simp, h.symm, ?_, ?_⟩
      · rw [← h]; exact hs
      · intro j d2 hj _; exact absurd hj (Nat.not_lt_zero j)
    · have hs2 : env.statOk (filepathJoin p exe) = false := by
        cases hb : env.statOk (filepathJoin p exe) with
        | true => exact absurd hb hs
        | false => rfl
      simp [findInPaths, hs2] at h
      obtain ⟨i, d, hget, hfp, hstat, hmin⟩ := ih fp h
      refine ⟨i + 1, d, by simpa using hget, hfp, hstat, ?_⟩
      intro j d2 hj hget2
      cases j with
      | zero => simp at hget2; subst hget2; exact hs2
      | succ j2 => exact hmin j2 d2 (by omega) (by simpa using hget2)

/-- Completeness of the PATH scan: a miss means every listed directory's
candidate fails the stat. -/
theorem findInPaths_none_spec (env : Env) (exe : String) :
    ∀ ps : List String, findInPaths env exe ps = none →
      ∀ (j : Nat) (d : String), ps[j]? = some d → env.statOk (filepathJoin d exe) = false := by
  intro ps
  induction ps with
  | nil => intro _ j d hget; simp at hget
  | cons p rest ih =>
    intro h j d hget
    by_cases hs : env.statOk (filepathJoin p exe) = true
    · simp [findInPaths, hs] at h
    · have hs2 : env.statOk (filepathJoin p exe) = false := by
        cases hb : env.statOk (filepathJoin p exe) with
        | true => exact absurd hb hs
        | false => rfl
      simp [findInPaths, hs2] at h
      cases j with
      | zero => simp at hget; subst hget; exact hs2
      | succ j2 => exact ih h j2 d (by simpa using hget)

/-- C8 counterexample: with PATH `d`, an entry `d/x` that exists but is not
an executable file, `type x` reports `x is d/x` instead of the `not found`
the claim's "executable file" reading requires (the source's `find` tests
bare `os.Stat` existence, never executability). -/
theorem claimC8_counterexample :
    _type envT ["x"] = ([Event.fwrite Writer.stdout "x is d/x\n"], CmdOutcome.ok, true)
    ∧ specFindExecutable envT "x" = none
    ∧ envT.statOk "d/x" = true ∧ envT.execOk "d/x" = false
    ∧ ("x is d/x\n" : String) ≠ "x: not found\n" := by decide

/-- C8 (amended): `type` with an argument count other than one produces the
arity error; with a builtin name it reports "is a shell builtin"; otherwise
it splits the PATH variable on `:` and checks the directories in listed
order for a file-system entry (existence via stat, executability not
verified) named like the argument, reporting the first match's joined path
or "not found" when every candidate misses. -/
theorem claimC8_amended (env : Env) (a : String) :
    (∀ args : List String, args.length ≠ 1 →
      _type env args
        = ([], CmdOutcome.err ("Error: Expected 1 argument, received " ++ toString args.length),
           false))
    ∧ (a ∈ builtinNames →
        _type env [a]
          = ([Event.fwrite Writer.stdout (a ++ " is a shell builtin\n")], CmdOutcome.ok, true))
    ∧ (a ∉ builtinNames → ∀ fp, find env a = some fp →
        _type env [a] = ([Event.fwrite Writer.stdout (a ++ " is " ++ fp ++ "\n")],
          CmdOutcome.ok, true)
        ∧ ∃ (i : Nat) (d : String), (goSplitColon env.pathVar)[i]? = some d
            ∧ fp = filepathJoin d a
            ∧ env.statOk fp = true
            ∧ ∀ (j : Nat) (d2 : String), j < i → (goSplitColon env.pathVar)[j]? = some d2 →
                env.statOk (filepathJoin d2 a) = false)
    ∧ (a ∉ builtinNames → find env a = none →
        _type env [a] = ([Event.fwrite Writer.stdout (a ++ ": not found\n")], CmdOutcome.ok, true)
        ∧ ∀ (j : Nat) (d : String), (goSplitColon env.pathVar)[j]? = some d →
            env.statOk (filepathJoin d a) = false) := by
  refine ⟨?_, ?_, ?_, ?_⟩
  · intro args hlen
    cases args with
    | nil => simp [_type]
    | cons x t =>
      cases t with
      | nil => simp at hlen
      | cons y t2 => simp [_type]
  · intro hb
    simp [_type, hb]
  · intro hnb fp hfind
    refine ⟨by simp [_type, hnb, hfind], ?_⟩
    exact findInPaths_some_spec env a (goSplitColon env.pathVar) fp hfind
  · intro hnb hfind
    refine ⟨by simp [_type, hnb, hfind], ?_⟩
    exact findInPaths_none_spec env a (goSplitColon env.pathVar) hfind

/-- Witness for C8 (amended): `type echo` on the builtin branch. -/
theorem claimC8_witness :
    _type envW ["echo"]
      = ([Event.fwrite Writer.stdout "echo is a shell builtin\n"], CmdOutcome.ok, true) :=
  (claimC8_amended envW "echo").2.1 (by decide)

/-! ## Claim C4 -/

/-- C4 counterexample: in `'a\b'` the backslash sits inside single quotes,
yet the parsed token is `ab` — the backslash was consumed as an escape, not
appended literally (the source sets the escape flag without consulting the
quote state). -/
theorem claimC4_counterexample :
    parseCommand "\x27a\\b\x27" = [{ op := "ab", args := [] }]
    ∧ ("ab" : String) ≠ "a\\b" := by decide

/-- C4 (amended): the tokenizer enters escape mode on a backslash regardless
of quote state — also inside single quotes — and when escape mode is set the
single following character is appended literally to the token under
construction with escape mode cleared. -/
theorem claimC4_amended (st : PState) (c : Char) (rest : List Char) :
    (st.bs = false → pstep st '\\' = { st with bs := true })
    ∧ (st.bs = true → pstep st c = { st with token := st.token ++ [c], bs := false })
    ∧ (st.bs = true →
        ploop st (c :: rest) = ploop { st with token := st.token ++ [c], bs := false } rest) := by
  refine ⟨?_, ?_, ?_⟩
  · intro h; simp [pstep, h]
  · intro h; simp [pstep, h]
  · intro h
    cases rest with
    | nil => simp [ploop, pstep, h]
    | cons c2 rest2 => simp [ploop, pstep, h]

/-- A state inside single quotes with the escape flag set. -/
def stW : PState :=
  { op := "", args := [], token := [], sq := true, dq := false, bs := true,
    isFirst := true, stack := [] }

/-- Witness for C4 (amended): with the escape flag set (inside single
quotes), the next character is appended literally. -/
theorem claimC4_witness :
    pstep stW 'b' = { stW with token := ['b'], bs := false } :=
  (claimC4_amended stW 'b' []).2.1 rfl

/-! ## Claim C9 -/

/-- Flushing a token never touches the finished-command stack. -/
theorem flushToken_stack (st : PState) : (flushToken st).stack = st.stack := by
  unfold flushToken
  split_ifs <;> rfl

/-- A single scan step never touches the finished-command stack. -/
theorem pstep_stack (st : PState) (c : Char) : (pstep st c).stack = st.stack := by
  unfold pstep pushRedirTok
  split_ifs <;> simp [flushToken_stack]

/-- `pushCommand` only ever queues commands with a non-empty operation. -/
theorem pushCmd_of_empty (st : PState) (h : (flushToken st).op = "") :
    pushCmd st = flushToken st := by
  unfold pushCmd
  simp [h]

theorem pushCmd_of_ne (st : PState) (h : ¬ (flushToken st).op = "") :
    pushCmd st
      = { flushToken st with
          stack := (flushToken st).stack
            ++ [{ op := (flushToken st).op, args := (flushToken st).args }],
          op := "", args := [], isFirst := true } := by
  unfold pushCmd
  simp [h]

theorem pushCmd_stack_inv (st : PState) (h : ∀ c ∈ st.stack, c.op ≠ "") :
    ∀ c ∈ (pushCmd st).stack, c.op ≠ "" := by
  have hfs : (flushToken st).stack = st.stack := flushToken_stack st
  by_cases hop2 : (flushToken st).op = ""
  · rw [pushCmd_of_empty st hop2, hfs]; exact h
  · rw [pushCmd_of_ne st hop2]
    intro c hc
    simp only [hfs] at hc
    rcases List.mem_append.mp hc with hc2 | hc2
    · exact h c hc2
    · have hceq : c = { op := (flushToken st).op, args := (flushToken st).args } := by
        simpa using hc2
      rw [hceq]
      simpa using hop2

/-- Every command the scan loop queues has a non-empty operation. -/
theorem ploop_stack_inv (st : PState) (l : List Char) :
    (∀ c ∈ st.stack, c.op ≠ "") → ∀ c ∈ (ploop st l).stack, c.op ≠ "" := by
  induction st, l using ploop.induct with
  | case1 st => intro h; simpa [ploop] using h
  | case2 st c =>
    intro h
    rw [ploop]
    intro c2 hc2
    rw [pstep_stack] at hc2
    exact h c2 hc2
  | case3 st c c2 rest hcond ih =>
    intro h
    rw [ploop, if_pos hcond]
    exact ih (pushCmd_stack_inv st h)
  | case4 st c c2 rest hcond ih =>
    intro h
    rw [ploop, if_neg hcond]
    refine ih ?_
    intro c3 hc3
    rw [pstep_stack] at hc3
    exact h c3 hc3

/-- The linking pass only rewrites the `next` field. -/
theorem linkAux_get? (total : Nat) :
    ∀ (l : List Command) (i j : Nat),
      (linkAux i total l)[j]?
        = (l[j]?).map (fun c =>
            { c with next := if i + j + 1 < total then some (i + j + 1) else none }) := by
  intro l
  induction l with
  | nil => intro i j; simp [linkAux]
  | cons c rest ih =>
    intro i j
    cases j with
    | zero => simp [linkAux]
    | succ j2 =>
      simp only [linkAux, List.getElem?_cons_succ, ih (i + 1) j2]
      have harith : i + 1 + j2 + 1 = i + (j2 + 1) + 1 := by omega
      rw [harith]

/-- Linking preserves the chain's length. -/
theorem linkAux_length (total : Nat) :
    ∀ (l : List Command) (i : Nat), (linkAux i total l).length = l.length := by
  intro l
  induction l with
  | nil => intro i; rfl
  | cons c rest ih => intro i; simp [linkAux, ih]

/-- C9: every command placed in the parsed chain has a non-empty operation
name (empty-operation commands are discarded), and after linking, each
element's next pointer names its immediate successor, the last element's
pointer staying empty. -/
theorem claimC9 (s : String) :
    (∀ c ∈ parseChain s, c.op ≠ "")
    ∧ ∀ (i : Nat) (c : Command), (parseChain s)[i]? = some c →
        c.next = if i + 1 < (parseChain s).length then some (i + 1) else none := by
  have hbase : ∀ c ∈ parseCommand s, c.op ≠ "" := by
    intro c hc
    exact pushCmd_stack_inv (ploop initPState s.data)
      (ploop_stack_inv initPState s.data (by intro c2 hc2; simp [initPState] at hc2)) c hc
  constructor
  · intro c hc
    rw [parseChain, linkChain] at hc
    obtain ⟨j, hj⟩ := List.getElem?_of_mem hc
    rw [linkAux_get? (parseCommand s).length (parseCommand s) 0 j] at hj
    cases hget : (parseCommand s)[j]? with
    | none => rw [hget] at hj; simp at hj
    | some c0 =>
      rw [hget] at hj
      simp only [Option.map_some'] at hj
      have hc0 : c0 ∈ parseCommand s := by
        obtain ⟨hlt, hEq⟩ := List.getElem?_eq_some.mp hget
        rw [← hEq]; exact List.getElem_mem hlt
      have hinj := Option.some.inj hj
      have hop3 : c.op = c0.op := by rw [← hinj]
      rw [hop3]
      exact hbase c0 hc0
  · intro i c hc
    rw [parseChain, linkChain] at hc
    rw [linkAux_get? (parseCommand s).length (parseCommand s) 0 i] at hc
    cases hget : (parseCommand s)[i]? with
    | none => rw [hget] at hc; simp at hc
    | some c0 =>
      rw [hget] at hc
      simp only [Option.map_some'] at hc
      have hlen : (parseChain s).length = (parseCommand s).length := by
        rw [parseChain, linkChain]
        exact linkAux_length (parseCommand s).length (parseCommand s) 0
      have hinj := Option.some.inj hc
      rw [hlen, ← hinj]
      simp

/-- Witness for C9 at `a && b`: the first link points at the second command,
the second link is empty, and both operations are non-empty. -/
theorem claimC9_witness :
    (∀ c ∈ parseChain "a && b", c.op ≠ "")
    ∧ Option.some 1
        = (if 0 + 1 < (parseChain "a && b").length then some (0 + 1) else none)
    ∧ ({ op := "a", args := [], next := some 1 : Command }).next
        = (if 0 + 1 < (parseChain "a && b").length then some (0 + 1) else none)
    ∧ ({ op := "b", args := [] : Command }).next
        = (if 1 + 1 < (parseChain "a && b").length then some (1 + 1) else none) :=
  ⟨(claimC9 "a && b").1, by decide,
   (claimC9 "a && b").2 0 { op := "a", args := [], next := some 1 } (by decide),
   (claimC9 "a && b").2 1 { op := "b", args := [] } (by decide)⟩

/-! ## Claim C5 -/

/-- The scan flags and token builder after a flush. -/
theorem flushToken_fields (st : PState) :
    (flushToken st).sq = st.sq ∧ (flushToken st).dq = st.dq ∧ (flushToken st).bs = st.bs
      ∧ (flushToken st).token = [] := by
  unfold flushToken
  split_ifs with h1 h2 <;> simp_all

/-- Flushing preserves the command-record invariants: a first-token state has
empty operation and arguments, a non-first state has a non-empty operation. -/
theorem flushToken_inv (st : PState)
    (hfst : st.isFirst = true → st.op = "" ∧ st.args = [])
    (hop2 : st.isFirst = false → st.op ≠ "") :
    ((flushToken st).isFirst = true → (flushToken st).op = "" ∧ (flushToken st).args = [])
    ∧ ((flushToken st).isFirst = false → (flushToken st).op ≠ "") := by
  unfold flushToken
  split_ifs with h1 h2
  · exact ⟨hfst, hop2⟩
  · constructor
    · intro hh; simp at hh
    · intro _
      intro hcontra
      have := congrArg String.data hcontra
      simp at this
      exact h1 this
  · have hf : st.isFirst = false := by simpa using h2
    constructor
    · intro hh; simp [hf] at hh
    · intro _; simpa using hop2 hf

/-- Flushing moves the pending token to the front of the remaining
spec-side token stream. -/
theorem chainOf_flush (st : PState) (ts : List String)
    (hfst : st.isFirst = true → st.op = "" ∧ st.args = []) :
    chainOf (flushToken st).isFirst (flushToken st).op (flushToken st).args ts
      = chainOf st.isFirst st.op st.args
          (if st.token = [] then ts else String.mk st.token :: ts) := by
  unfold flushToken
  split_ifs with h1 h2
  · rfl
  · obtain ⟨-, hargs⟩ := hfst h2
    simp [chainOf, h2, hargs]
  · have hf : st.isFirst = false := by simpa using h2
    simp [chainOf, hf]

/-- The final `pushCommand` realizes the remaining (empty-stream) chain. -/
theorem pushCmd_spec (st : PState)
    (hfst : st.isFirst = true → st.op = "" ∧ st.args = [])
    (hop2 : st.isFirst = false → st.op ≠ "") :
    (pushCmd st).stack
      = st.stack ++ chainOf st.isFirst st.op st.args
          ((specWordsAux st.token []).map String.mk) := by
  have hts : (specWordsAux st.token []).map String.mk
      = (if st.token = [] then [] else [String.mk st.token]) := by
    unfold specWordsAux; split_ifs <;> simp
  rw [hts, ← chainOf_flush st [] hfst]
  by_cases hpe : (flushToken st).op = ""
  · rw [pushCmd_of_empty st hpe, flushToken_stack]
    cases hf : (flushToken st).isFirst with
    | true => simp [chainOf, hf]
    | false => exact absurd hpe ((flushToken_inv st hfst hop2).2 hf)
  · rw [pushCmd_of_ne st hpe]
    cases hf : (flushToken st).isFirst with
    | true => exact absurd ((flushToken_inv st hfst hop2).1 hf).1 hpe
    | false => simp [chainOf, hf, flushToken_stack]

/-- The characters a plain scan step cannot be confused with. -/
theorem plainChar_spec (c : Char) (h : plainChar c = true) :
    c ≠ '\x27' ∧ c ≠ '"' ∧ c ≠ '\\' ∧ c ≠ '>' := by
  simp [plainChar] at h
  exact ⟨h.1.1.1, h.1.1.2, h.1.2, h.2⟩

/-- A space with clear flags flushes the token. -/
theorem pstep_space (st : PState) (hsq : st.sq = false) (hdq : st.dq = false)
    (hbs : st.bs = false) : pstep st ' ' = flushToken st := by
  simp [pstep, hsq, hdq, hbs]

/-- Any other plain character is appended to the token under construction. -/
theorem pstep_other (st : PState) (c : Char) (hbs : st.bs = false)
    (hc : plainChar c = true) (hsp : c ≠ ' ') :
    pstep st c = { st with token := st.token ++ [c] } := by
  obtain ⟨h1, h2, h3, h4⟩ := plainChar_spec c hc
  simp [pstep, hbs, h1, h2, h3, h4, hsp]

/-- `noAmpAmp` restricts to the tail. -/
theorem noAmpAmp_tail (c : Char) (rest : List Char) (h : noAmpAmp (c :: rest) = true) :
    noAmpAmp rest = true := by
  cases rest with
  | nil => rfl
  | cons c2 r2 =>
    simp [noAmpAmp] at h ⊢
    exact h.2

/-- One plain scan step: the stack, flags and invariants carry over, and the
chain denotation absorbs the consumed character into the spec-side stream. -/
theorem plain_step_chain (st : PState) (c : Char) (tl : List Char)
    (hsq : st.sq = false) (hdq : st.dq = false) (hbs : st.bs = false)
    (hfst : st.isFirst = true → st.op = "" ∧ st.args = [])
    (hop2 : st.isFirst = false → st.op ≠ "")
    (hc : plainChar c = true) :
    (pstep st c).stack = st.stack
    ∧ (pstep st c).sq = false ∧ (pstep st c).dq = false ∧ (pstep st c).bs = false
    ∧ ((pstep st c).isFirst = true → (pstep st c).op = "" ∧ (pstep st c).args = [])
    ∧ ((pstep st c).isFirst = false → (pstep st c).op ≠ "")
    ∧ chainOf (pstep st c).isFirst (pstep st c).op (pstep st c).args
          ((specWordsAux (pstep st c).token tl).map String.mk)
        = chainOf st.isFirst st.op st.args
            ((specWordsAux st.token (c :: tl)).map String.mk) := by
  by_cases hsp : c = ' '
  · subst hsp
    rw [pstep_space st hsq hdq hbs]
    obtain ⟨hq1, hq2, hq3, htok⟩ := flushToken_fields st
    obtain ⟨hi1, hi2⟩ := flushToken_inv st hfst hop2
    refine ⟨flushToken_stack st, by rw [hq1, hsq], by rw [hq2, hdq], by rw [hq3, hbs],
      hi1, hi2, ?_⟩
    rw [htok, chainOf_flush st _ hfst]
    congr 1
    by_cases ht : st.token = []
    · simp [specWordsAux, ht]
    · simp [specWordsAux, ht]
  · rw [pstep_other st c hbs hc hsp]
    refine ⟨rfl, hsq, hdq, hbs, hfst, hop2, ?_⟩
    simp [specWordsAux, hsp]

/-- The scan loop on a plain line (no quote, backslash or `>` characters and
no adjacent ampersands) acts as the spec-side space tokenizer. -/
theorem ploop_plain_spec (st : PState) (l : List Char) :
    l.all plainChar = true → noAmpAmp l = true →
    st.sq = false → st.dq = false → st.bs = false →
    (st.isFirst = true → st.op = "" ∧ st.args = []) →
    (st.isFirst = false → st.op ≠ "") →
    (pushCmd (ploop st l)).stack
      = st.stack ++ chainOf st.isFirst st.op st.args
          ((specWordsAux st.token l).map String.mk) := by
  induction st, l using ploop.induct with
  | case1 st =>
    intro _ _ hsq hdq hbs hfst hop2
    rw [ploop]
    exact pushCmd_spec st hfst hop2
  | case2 st c =>
    intro hpl hAA hsq hdq hbs hfst hop2
    rw [ploop]
    have hc : plainChar c = true := List.all_eq_true.mp hpl c (by simp)
    obtain ⟨hstk, hq1, hq2, hq3, hi1, hi2, hch⟩ :=
      plain_step_chain st c [] hsq hdq hbs hfst hop2 hc
    rw [pushCmd_spec (pstep st c) hi1 hi2, hstk, hch]
  | case3 st c c2 rest hcond ih =>
    intro hpl hAA hsq hdq hbs hfst hop2
    exfalso
    obtain ⟨-, -, -, hc, hc2⟩ := hcond
    subst hc; subst hc2
    simp [noAmpAmp] at hAA
  | case4 st c c2 rest hcond ih =>
    intro hpl hAA hsq hdq hbs hfst hop2
    rw [ploop, if_neg hcond]
    have hall := List.all_eq_true.mp hpl
    have hc : plainChar c = true := hall c (by simp)
    have hpl2 : (c2 :: rest).all plainChar = true :=
      List.all_eq_true.mpr (fun x hx => hall x (by simp; right; simpa using hx))
    have hAA2 : noAmpAmp (c2 :: rest) = true := noAmpAmp_tail c (c2 :: rest) hAA
    obtain ⟨hstk, hq1, hq2, hq3, hi1, hi2, hch⟩ :=
      plain_step_chain st c (c2 :: rest) hsq hdq hbs hfst hop2 hc
    rw [ih hpl2 hAA2 hq1 hq2 hq3 hi1 hi2, hstk, hch]

/-- C5 counterexample: `echo a>b` contains no quote characters and no `&&`,
its space-delimited tokens are `echo` and `a>b`, but parsing yields the
argument list `["a", ">", "b"]` (the unquoted `>` always flushes and becomes
its own argument), not `["a>b"]`. -/
theorem claimC5_counterexample :
    (∀ c ∈ "echo a>b".data, c ≠ '\x27' ∧ c ≠ '"')
    ∧ noAmpAmp "echo a>b".data = true
    ∧ specTokens "echo a>b" = ["echo", "a>b"]
    ∧ parseCommand "echo a>b" = [{ op := "echo", args := ["a", ">", "b"] }]
    ∧ (["a", ">", "b"] : List String) ≠ ["a>b"] := by decide

/-- C5 (amended): for every input line containing no single-quote,
double-quote, backslash or `>` characters and no two adjacent `&`
characters, if the line has at least one space-delimited token then parsing
yields exactly one command whose operation is the first token and whose
arguments are the remaining tokens in order, consecutive spaces collapsing. -/
theorem claimC5_amended (s : String) (w : String) (ws : List String)
    (hplain : s.data.all plainChar = true) (hAA : noAmpAmp s.data = true)
    (htok : specTokens s = w :: ws) :
    parseCommand s = [{ op := w, args := ws }] := by
  have h := ploop_plain_spec initPState s.data hplain hAA rfl rfl rfl
    (fun _ => ⟨rfl, rfl⟩) (fun hh => by simp [initPState] at hh)
  rw [parseCommand, h]
  simp only [initPState]
  rw [show ((specWordsAux [] s.data).map String.mk) = specTokens s from rfl, htok]
  simp [chainOf]

/-- Witness for C5 (amended) at `a  b c`. -/
theorem claimC5_witness :
    parseCommand "a  b c" = [{ op := "a", args := ["b", "c"] }] :=
  claimC5_amended "a  b c" "a" ["b", "c"] (by decide) (by decide) (by decide)

end Shell
